import Mathlib

/-!
A shallow embedding of MiraSim.py (IBM-Mira-Simulator).

The simulator replays a trace of job arrivals against a cluster of 96
midplanes of 16*32 = 512 nodes each, with FCFS admission and a tick-driven
simulation loop.

Modelling conventions:
* Python object references to a Job held by midplanes and nodes are
  modelled by the job's name (unique within a run).
* A Job's `midplanes` list and the scheduler's vacant-midplane search are
  modelled with indices into `Mira.midplanes` (the pool owns the blocks,
  jobs hold non-owning references).
* Methods that can raise a Python exception are `Except String`-valued;
  `MidPlane.free_up` additionally returns whether the double-free warning
  fired before the method finished or raised.
* The `for j in self.running_jobs` loop of `Mira.jobs_tick` removes from
  the list while iterating it; the Python list iterator is modelled
  index-exactly: the iterator's position advances past the slot of a
  removed element, so the element directly after a removed one is not
  visited on that pass.
* Loops whose iteration count is bounded by a list length are written
  with an explicit fuel argument equal to that bound; each iteration
  strictly shrinks the bound, so the fuel never runs out before the
  loop's own exit condition holds.
-/

namespace MiraSim

inductive JobStatus where
  | CREATED
  | QUEUED
  | READY
  | RUNNING
  | ENDED
deriving DecidableEq

structure Job where
  name : String
  num_of_requested_nodes : Nat
  submitted_time : Int
  start_time : Option Int
  end_time : Option Int
  duration : Int
  exit_code : String
  status : JobStatus
  midplanes : List Nat
deriving DecidableEq

def Job.submit (j : Job) (curr_time : Int) : Job :=
  { j with submitted_time := curr_time, status := JobStatus.QUEUED }

def Job.start (j : Job) (curr_time : Int) : Job :=
  { j with start_time := some curr_time,
           status := JobStatus.RUNNING,
           end_time := some (curr_time + j.duration) }

def Job.end_ (j : Job) (curr_time : Int) : Job :=
  { j with end_time := some curr_time, status := JobStatus.ENDED }

/- `Job.tick`: if READY, start; then (no elif in the source) if RUNNING and
`end_time <= curr_time`, end.  A RUNNING job always has `end_time` set
(it was set by `Job.start`); the `none` branch is unreachable. -/
def Job.tick (j : Job) (curr_time : Int) : Job :=
  let j1 := if j.status = JobStatus.READY then j.start curr_time else j
  if j1.status = JobStatus.RUNNING then
    match j1.end_time with
    | some e => if e ≤ curr_time then j1.end_ curr_time else j1
    | none => j1
  else j1

def Job.assign_midplanes (j : Job) (mds : List Nat) : Job :=
  { j with midplanes := mds }

def Job.ready (j : Job) : Job :=
  { j with status := JobStatus.READY }

def Job.is_ended (j : Job) : Bool :=
  decide (j.status = JobStatus.ENDED)

structure Node where
  job : Option String
deriving DecidableEq

def Node.assign_job (n : Node) (j : Job) : Node :=
  { n with job := some j.name }

def Node.free_up (n : Node) : Node :=
  { n with job := none }

inductive MidPlaneStatus where
  | VACANT
  | OCCUPIED
deriving DecidableEq

structure MidPlane where
  name : String
  status : MidPlaneStatus
  job : Option String
  nodes : List Node
deriving DecidableEq

def MidPlane.init (name : String) : MidPlane :=
  { name := name, status := MidPlaneStatus.VACANT, job := none,
    nodes := List.replicate (16 * 32) { job := none } }

def MidPlane.is_vacant (mp : MidPlane) : Bool :=
  decide (mp.status = MidPlaneStatus.VACANT)

/- The source assigns every node, marks the midplane OCCUPIED and records
the owning job; it performs no occupancy check and cannot raise. -/
def MidPlane.assign_job (mp : MidPlane) (j : Job) : MidPlane :=
  { mp with nodes := mp.nodes.map (fun n => n.assign_job j),
            status := MidPlaneStatus.OCCUPIED,
            job := some j.name }

def attrErrMsg : String := "AttributeError"

/- `MidPlane.free_up`: warns when already vacant, frees every node, marks
the midplane VACANT, then logs an info line that reads `self.job.name`:
when `self.job` is `None` that read raises AttributeError and the
exception propagates (there is no handler in the program, so the partial
in-place mutation that precedes the raise is unobservable); otherwise the
method finishes by clearing `self.job`. -/
def MidPlane.free_up (mp : MidPlane) : Bool × Except String MidPlane :=
  let warned := mp.is_vacant
  match mp.job with
  | none => (warned, Except.error attrErrMsg)
  | some _ =>
      (warned, Except.ok { mp with nodes := mp.nodes.map (fun n => n.free_up),
                                   status := MidPlaneStatus.VACANT,
                                   job := none })

/- `num_of_requested_midplanes = num_of_requested_nodes // 512` in
`Mira.schedule`. -/
def requiredMidplanes (n : Nat) : Nat := n / 512

/- The scheduler's vacant-midplane search: walk the pool in order,
breaking as soon as the accumulator holds the requested count.  `i` is
the index of the midplane at the head of the remaining list. -/
def findVacantAux (req : Nat) : List MidPlane → Nat → List Nat → List Nat
  | [], _, acc => acc
  | mp :: rest, i, acc =>
      if acc.length = req then acc
      else if mp.is_vacant then findVacantAux req rest (i + 1) (acc ++ [i])
      else findVacantAux req rest (i + 1) acc

/- `for mp in vacant_midplanes: mp.assign_job(job)`, applied by index. -/
def assignAll (idxs : List Nat) (j : Job) : List MidPlane → Nat → List MidPlane
  | [], _ => []
  | mp :: rest, i => (if i ∈ idxs then mp.assign_job j else mp) :: assignAll idxs j rest (i + 1)

structure Mira where
  queue : List Job
  running_jobs : List Job
  midplanes : List MidPlane
  simulated_wallclock : Int
deriving DecidableEq

def Mira.init : Mira :=
  { queue := [], running_jobs := [],
    midplanes := (List.range 96).map (fun i => MidPlane.init (toString i)),
    simulated_wallclock := 0 }

/- `submit_job` enqueues the job object and then mutates it in place via
`new_job.submit(self.simulated_wallclock)`; the queue therefore holds the
submitted version. -/
def Mira.submit_job (m : Mira) (new_job : Job) : Mira :=
  { m with queue := m.queue ++ [new_job.submit m.simulated_wallclock] }

def Mira.schedule (m : Mira) : Mira :=
  match m.queue with
  | [] => m
  | next :: rest =>
      let req := requiredMidplanes next.num_of_requested_nodes
      let vac := findVacantAux req m.midplanes 0 []
      if vac.length = req then
        let job1 := next.assign_midplanes vac
        let mps2 := assignAll vac job1 m.midplanes 0
        let job2 := job1.ready
        { m with queue := rest, midplanes := mps2,
                 running_jobs := m.running_jobs ++ [job2] }
      else m

/- Used only for the (unreachable) out-of-range lookup in `freeAll`: a
job's midplane indices always point into the pool. -/
def defaultMidPlane : MidPlane :=
  { name := "", status := MidPlaneStatus.VACANT, job := none, nodes := [] }

/- `for md in j.midplanes: md.free_up()`, with the AttributeError of
`free_up` propagating out (the warning flag is only logged). -/
def freeAll : List Nat → List MidPlane → Except String (List MidPlane)
  | [], mps => Except.ok mps
  | i :: rest, mps =>
      match (mps.getD i defaultMidPlane).free_up with
      | (_, Except.error e) => Except.error e
      | (_, Except.ok mp2) => freeAll rest (mps.set i mp2)

/- The `for j in self.running_jobs` loop of `jobs_tick`.  `idx` is the
Python iterator's next position in the current list; ticking happens in
place (`set idx`), and a job observed ENDED is removed (`eraseIdx idx`)
before the iterator moves on to position `idx + 1` of the shrunk list —
so the element that stood directly after a removed one is skipped.  The
fuel starts at the list's length, which bounds the iteration count since
`length - idx` strictly decreases each round. -/
def jobsTickGo (curr : Int) : Nat → Nat → List Job → List MidPlane →
    Except String (List Job × List MidPlane)
  | 0, _, running, mps => Except.ok (running, mps)
  | fuel + 1, idx, running, mps =>
      if h : idx < running.length then
        let j2 := (running.get ⟨idx, h⟩).tick curr
        if j2.is_ended then
          match freeAll j2.midplanes mps with
          | Except.error e => Except.error e
          | Except.ok mps2 =>
              jobsTickGo curr fuel (idx + 1) ((running.set idx j2).eraseIdx idx) mps2
        else
          jobsTickGo curr fuel (idx + 1) (running.set idx j2) mps
      else Except.ok (running, mps)

def Mira.jobs_tick (m : Mira) (curr_wallclock : Int) : Except String Mira :=
  match jobsTickGo curr_wallclock m.running_jobs.length 0 m.running_jobs m.midplanes with
  | Except.error e => Except.error e
  | Except.ok (run2, mps2) => Except.ok { m with running_jobs := run2, midplanes := mps2 }

def Mira.inc_wallclock (m : Mira) : Mira :=
  { m with simulated_wallclock := m.simulated_wallclock + 1 }

/- `Trace.get_job`: the parsed trace is sorted by descending submission
time and popped from the back, so `jobs[-1]` is the earliest remaining
arrival; it is yielded only when its time equals the current wallclock. -/
def Trace.get_job (jobs : List Job) (curr_time : Int) : Option Job × List Job :=
  match jobs.getLast? with
  | some j => if j.submitted_time = curr_time then (some j, jobs.dropLast) else (none, jobs)
  | none => (none, jobs)

structure SimState where
  trace : List Job
  mira : Mira
deriving DecidableEq

/- The `while new_job is not None` drain of step 1 of the loop body; each
successful `get_job` pops one trace entry, so `trace.length` bounds the
iteration count. -/
def drainGo : Nat → SimState → SimState
  | 0, s => s
  | fuel + 1, s =>
      match Trace.get_job s.trace s.mira.simulated_wallclock with
      | (some j, tr2) => drainGo fuel { trace := tr2, mira := s.mira.submit_job j }
      | (none, _) => s

def drainArrivals (s : SimState) : SimState := drainGo s.trace.length s

/- One iteration of the simulation's `while` body: drain arrivals, run the
scheduler once, tick the running jobs at the current wallclock, then
increment the wallclock. -/
def simStep (s : SimState) : Except String SimState :=
  let s1 := drainArrivals s
  let m2 := s1.mira.schedule
  match m2.jobs_tick m2.simulated_wallclock with
  | Except.error e => Except.error e
  | Except.ok m3 => Except.ok { trace := s1.trace, mira := m3.inc_wallclock }

/- Negation of the `while` condition: the loop halts when the trace, the
admission queue and the running set are all empty. -/
def loopDone (s : SimState) : Bool :=
  s.trace.isEmpty && s.mira.queue.isEmpty && s.mira.running_jobs.isEmpty

/- Run up to `k` iterations of the (unbounded) simulation loop, stopping
early if the loop's condition fails. -/
def runFor : Nat → SimState → Except String SimState
  | 0, s => Except.ok s
  | k + 1, s =>
      if loopDone s then Except.ok s
      else
        match simStep s with
        | Except.error e => Except.error e
        | Except.ok s2 => runFor k s2

def initState (tr : List Job) : SimState := { trace := tr, mira := Mira.init }

/-! Observations on a possibly-failed run, and concrete scenarios. -/

def runningAfter (r : Except String SimState) : List Job :=
  match r with
  | Except.ok s => s.mira.running_jobs
  | Except.error _ => []

def queueAfter (r : Except String SimState) : List Job :=
  match r with
  | Except.ok s => s.mira.queue
  | Except.error _ => []

def clockAfter (r : Except String SimState) : Int :=
  match r with
  | Except.ok s => s.mira.simulated_wallclock
  | Except.error _ => -1

def doneAfter (r : Except String SimState) : Bool :=
  match r with
  | Except.ok s => loopDone s
  | Except.error _ => false

def mpStatusAfter (r : Except String SimState) (i : Nat) : Option MidPlaneStatus :=
  match r with
  | Except.ok s => some ((s.mira.midplanes.getD i defaultMidPlane).status)
  | Except.error _ => none

def okB (r : Except String SimState) : Bool :=
  match r with
  | Except.ok _ => true
  | Except.error _ => false

def OkImplies (r : Except String SimState) (p : SimState → Prop) : Prop :=
  match r with
  | Except.ok s => p s
  | Except.error _ => True

def countVacant (mps : List MidPlane) : Nat :=
  mps.countP (fun mp => mp.is_vacant)

def mkJob (name : String) (nodes : Nat) (arrival : Int) (dur : Int) : Job :=
  { name := name, num_of_requested_nodes := nodes, submitted_time := arrival,
    start_time := none, end_time := none, duration := dur, exit_code := "0",
    status := JobStatus.CREATED, midplanes := [] }

/- Two one-node jobs arriving at t = 0; the trace list is in the parsed
(descending, popped-from-the-back) order, so "B" is pulled first. -/
def jobA0 : Job := mkJob "A" 1 0 1

def jobB0 : Job := mkJob "B" 1 0 2

def traceTwoJobs : List Job := [jobA0, jobB0]

def runTwo (k : Nat) : Except String SimState := runFor k (initState traceTwoJobs)

def jobB_run : Job :=
  { jobB0 with start_time := some 0, end_time := some 2, status := JobStatus.RUNNING }

def jobA_run : Job :=
  { jobA0 with start_time := some 1, end_time := some 2, status := JobStatus.RUNNING }

/- Scenario A of the spec, on the real pool: one job of exactly one
midplane's worth of nodes, duration 3, arriving at t = 0. -/
def jobS0 : Job := mkJob "S" 512 0 3

def runOne (k : Nat) : Except String SimState := runFor k (initState [jobS0])

def jobS_run : Job :=
  { jobS0 with start_time := some 0, end_time := some 3,
               status := JobStatus.RUNNING, midplanes := [0] }

/- A job whose node request exceeds the pool's total node capacity
(96 * 512 = 49152) but whose floor-divided midplane requirement,
49153 // 512 = 96, still fits the pool. -/
def jobHuge : Job := mkJob "H" 49153 0 1

def runHuge (k : Nat) : Except String SimState := runFor k (initState [jobHuge])

def jobHuge_run : Job :=
  { jobHuge with start_time := some 0, end_time := some 1,
                 status := JobStatus.RUNNING, midplanes := List.range 96 }

/- A job that really can never fit: 49664 = 97 * 512 nodes, i.e. a
midplane requirement of 97 > 96. -/
def jobBig97 : Job := mkJob "G" 49664 0 5

/- Concrete states for witnesses: a one-midplane pool that is fully
occupied. -/
def occupiedMp : MidPlane :=
  { name := "7", status := MidPlaneStatus.OCCUPIED, job := some "OLD",
    nodes := [{ job := some "OLD" }] }

def jobNew : Job := mkJob "NEW" 512 0 1

def jobTiny : Job := mkJob "tiny" 3 0 5

def miraOccupied : Mira :=
  { queue := [jobTiny], running_jobs := [], midplanes := [occupiedMp],
    simulated_wallclock := 0 }

def miraBlocked : Mira :=
  { queue := [jobNew], running_jobs := [], midplanes := [occupiedMp],
    simulated_wallclock := 0 }

/-! Helper lemmas about the scheduler's vacant-midplane search. -/

theorem findVacantAux_zero (mps : List MidPlane) (i : Nat) :
    findVacantAux 0 mps i [] = [] := by
  cases mps <;> simp [findVacantAux]

theorem assignAll_nil (j : Job) (mps : List MidPlane) :
    ∀ i, assignAll [] j mps i = mps := by
  induction mps with
  | nil => intro i; rfl
  | cons mp rest ih => intro i; simp [assignAll, ih]

theorem assignAll_length (idxs : List Nat) (j : Job) (mps : List MidPlane) :
    ∀ i, (assignAll idxs j mps i).length = mps.length := by
  induction mps with
  | nil => intro i; rfl
  | cons mp rest ih => intro i; simp [assignAll, ih]

theorem findVacantAux_length (req : Nat) (mps : List MidPlane) :
    ∀ i acc, acc.length ≤ req →
      (findVacantAux req mps i acc).length = min req (acc.length + countVacant mps) := by
  induction mps with
  | nil =>
      intro i acc hle
      simp [findVacantAux, countVacant, Nat.min_eq_right hle]
  | cons mp rest ih =>
      intro i acc hle
      by_cases hfull : acc.length = req
      · simp [findVacantAux, hfull, Nat.min_eq_left (Nat.le_add_right _ _)]
      · have hlt : acc.length < req := lt_of_le_of_ne hle hfull
        by_cases hv : mp.is_vacant
        · have hstep : findVacantAux req (mp :: rest) i acc =
              findVacantAux req rest (i + 1) (acc ++ [i]) := by
            simp [findVacantAux, hfull, hv]
          rw [hstep, ih (i + 1) (acc ++ [i]) (by simpa using hlt)]
          simp [countVacant, List.countP_cons, hv]
          omega
        · have hstep : findVacantAux req (mp :: rest) i acc =
              findVacantAux req rest (i + 1) acc := by
            simp [findVacantAux, hfull, hv]
          rw [hstep, ih (i + 1) acc hle]
          simp [countVacant, List.countP_cons, hv]

theorem countVacant_le_length (mps : List MidPlane) :
    countVacant mps ≤ mps.length :=
  List.countP_le_length _

theorem schedule_insufficient (m : Mira) (next : Job) (rest : List Job)
    (hq : m.queue = next :: rest)
    (hlt : countVacant m.midplanes < requiredMidplanes next.num_of_requested_nodes) :
    m.schedule = m := by
  have hlen := findVacantAux_length (requiredMidplanes next.num_of_requested_nodes)
    m.midplanes 0 [] (Nat.zero_le _)
  have hne : (findVacantAux (requiredMidplanes next.num_of_requested_nodes)
      m.midplanes 0 []).length ≠ requiredMidplanes next.num_of_requested_nodes := by
    rw [hlen]
    simp only [List.length_nil, Nat.zero_add]
    omega
  unfold Mira.schedule
  rw [hq]
  simp only [hne, if_false]

/-- Claim C10: for any pool state whatsoever (in particular with every
midplane OCCUPIED), a head-of-queue job requesting fewer than 512 nodes
has `requiredMidplanes = 0`, so the scheduler admits it on the current
tick: it is dequeued, marked READY, and appended to the running set with
an empty midplane list, while the pool is left untouched (so the job
holds no resources, and releasing its empty midplane list at its end
frees nothing). -/
theorem schedule_small_request (m : Mira) (next : Job) (rest : List Job)
    (hq : m.queue = next :: rest) (hsmall : next.num_of_requested_nodes < 512) :
    m.schedule = { m with queue := rest,
                          running_jobs := m.running_jobs ++
                            [{ next with midplanes := [], status := JobStatus.READY }] } := by
  have hreq : requiredMidplanes next.num_of_requested_nodes = 0 := Nat.div_eq_of_lt hsmall
  unfold Mira.schedule
  rw [hq]
  simp [hreq, findVacantAux_zero, assignAll_nil, Job.assign_midplanes, Job.ready]

theorem required_midplanes_floor_aux (n r : Nat) (h1 : r * 512 ≤ n)
    (h2 : n < (r + 1) * 512) : requiredMidplanes n = r := by
  have h512 : 0 < 512 := by norm_num
  unfold requiredMidplanes
  refine Nat.le_antisymm ?_ ((Nat.le_div_iff_mul_le h512).mpr h1)
  exact Nat.lt_succ_iff.mp ((Nat.div_lt_iff_lt_mul h512).mpr h2)

/-! A case analysis of one scheduler invocation, and its consequences. -/

theorem schedule_cases (m : Mira) :
    m.schedule = m ∨
    ∃ next rest,
      m.queue = next :: rest ∧
      (findVacantAux (requiredMidplanes next.num_of_requested_nodes) m.midplanes 0 []).length
        = requiredMidplanes next.num_of_requested_nodes ∧
      m.schedule = { m with
        queue := rest,
        midplanes := assignAll
          (findVacantAux (requiredMidplanes next.num_of_requested_nodes) m.midplanes 0 [])
          (next.assign_midplanes
            (findVacantAux (requiredMidplanes next.num_of_requested_nodes) m.midplanes 0 []))
          m.midplanes 0,
        running_jobs := m.running_jobs ++
          [(next.assign_midplanes
              (findVacantAux (requiredMidplanes next.num_of_requested_nodes)
                m.midplanes 0 [])).ready] } := by
  cases hq : m.queue with
  | nil => left; unfold Mira.schedule; rw [hq]
  | cons next rest =>
      by_cases hfit : (findVacantAux (requiredMidplanes next.num_of_requested_nodes)
          m.midplanes 0 []).length = requiredMidplanes next.num_of_requested_nodes
      · right
        refine ⟨next, rest, rfl, hfit, ?_⟩
        unfold Mira.schedule
        rw [hq]
        simp [hfit]
      · left
        unfold Mira.schedule
        rw [hq]
        simp [hfit]

theorem schedule_wallclock (m : Mira) :
    m.schedule.simulated_wallclock = m.simulated_wallclock := by
  rcases schedule_cases m with h | ⟨next, rest, _, _, h⟩ <;> rw [h]

theorem schedule_midplanes_length (m : Mira) :
    m.schedule.midplanes.length = m.midplanes.length := by
  rcases schedule_cases m with h | ⟨next, rest, _, _, h⟩ <;> rw [h]
  exact assignAll_length _ _ _ _

theorem fit_le_midplanes_length (m : Mira) (next : Job)
    (hfit : (findVacantAux (requiredMidplanes next.num_of_requested_nodes)
        m.midplanes 0 []).length = requiredMidplanes next.num_of_requested_nodes) :
    requiredMidplanes next.num_of_requested_nodes ≤ m.midplanes.length := by
  have hlen := findVacantAux_length (requiredMidplanes next.num_of_requested_nodes)
    m.midplanes 0 [] (Nat.zero_le _)
  rw [hlen] at hfit
  have hle : requiredMidplanes next.num_of_requested_nodes ≤
      ([] : List Nat).length + countVacant m.midplanes := hfit ▸ min_le_right _ _
  have := countVacant_le_length m.midplanes
  simp only [List.length_nil, Nat.zero_add] at hle
  omega

theorem schedule_queue_mem (m : Mira) (j : Job) (hj : j ∈ m.queue)
    (hbig : m.midplanes.length < requiredMidplanes j.num_of_requested_nodes) :
    j ∈ m.schedule.queue := by
  rcases schedule_cases m with h | ⟨next, rest, hq, hfit, h⟩
  · rw [h]; exact hj
  · rw [h]
    rw [hq, List.mem_cons] at hj
    rcases hj with hj | hj
    · subst hj
      exact absurd (fit_le_midplanes_length m j hfit) (by omega)
    · exact hj

theorem schedule_running_mem (m : Mira) (j : Job) (hj : j ∈ m.schedule.running_jobs) :
    j ∈ m.running_jobs ∨ requiredMidplanes j.num_of_requested_nodes ≤ m.midplanes.length := by
  rcases schedule_cases m with h | ⟨next, rest, hq, hfit, h⟩
  · rw [h] at hj; exact Or.inl hj
  · rw [h] at hj
    simp only [List.mem_append, List.mem_singleton] at hj
    rcases hj with hj | hj
    · exact Or.inl hj
    · right
      rw [hj]
      exact fit_le_midplanes_length m next hfit

/-! The running-job tick loop: lengths and membership. -/

theorem freeAll_length : ∀ (idxs : List Nat) (mps mps2 : List MidPlane),
    freeAll idxs mps = Except.ok mps2 → mps2.length = mps.length := by
  intro idxs
  induction idxs with
  | nil =>
      intro mps mps2 h
      unfold freeAll at h
      injection h with h
      rw [← h]
  | cons i rest ih =>
      intro mps mps2 h
      unfold freeAll at h
      rcases hf : (mps.getD i defaultMidPlane).free_up with ⟨w, res⟩
      rw [hf] at h
      cases res with
      | error e => exact absurd h (by simp)
      | ok mp2 =>
          have := ih (mps.set i mp2) mps2 h
          rw [this, List.length_set]

theorem tick_num (j : Job) (curr : Int) :
    (j.tick curr).num_of_requested_nodes = j.num_of_requested_nodes := by
  have hinner : ∀ j1 : Job,
      (if j1.status = JobStatus.RUNNING then
          match j1.end_time with
          | some e => if e ≤ curr then j1.end_ curr else j1
          | none => j1
        else j1).num_of_requested_nodes = j1.num_of_requested_nodes := by
    intro j1
    split
    · cases he : j1.end_time with
      | none => rfl
      | some e => dsimp only; split <;> rfl
    · rfl
  unfold Job.tick
  dsimp only
  by_cases hr : j.status = JobStatus.READY
  · rw [if_pos hr, hinner (j.start curr)]; rfl
  · rw [if_neg hr]; exact hinner j

theorem jobsTickGo_ok_spec (curr : Int) (P : Job → Prop) (hP : ∀ j, P j → P (j.tick curr)) :
    ∀ (fuel idx : Nat) (running r2 : List Job) (mps m2 : List MidPlane),
      jobsTickGo curr fuel idx running mps = Except.ok (r2, m2) →
      ((∀ j ∈ running, P j) → ∀ j ∈ r2, P j) ∧ m2.length = mps.length := by
  intro fuel
  induction fuel with
  | zero =>
      intro idx running r2 mps m2 h
      unfold jobsTickGo at h
      injection h with h
      injection h with h1 h2
      subst h1; subst h2
      exact ⟨fun hp => hp, rfl⟩
  | succ fuel ih =>
      intro idx running r2 mps m2 h
      unfold jobsTickGo at h
      by_cases hidx : idx < running.length
      · rw [dif_pos hidx] at h
        set j2 := (running.get ⟨idx, hidx⟩).tick curr with hj2
        by_cases hend : j2.is_ended
        · rw [if_pos hend] at h
          rcases hfa : freeAll j2.midplanes mps with e | mps3
          · rw [hfa] at h; exact absurd h (by simp)
          · rw [hfa] at h
            obtain ⟨hpred, hlen⟩ := ih (idx + 1) ((running.set idx j2).eraseIdx idx) r2 mps3 m2 h
            refine ⟨fun hp => hpred ?_, by rw [hlen, freeAll_length _ _ _ hfa]⟩
            intro j hjmem
            have hjset : j ∈ running.set idx j2 :=
              (List.eraseIdx_sublist (running.set idx j2) idx).subset hjmem
            rcases List.mem_or_eq_of_mem_set hjset with hmem | rfl
            · exact hp j hmem
            · exact hP _ (hp _ (List.get_mem running idx hidx))
        · rw [if_neg hend] at h
          obtain ⟨hpred, hlen⟩ := ih (idx + 1) (running.set idx j2) r2 mps m2 h
          refine ⟨fun hp => hpred ?_, hlen⟩
          intro j hjmem
          rcases List.mem_or_eq_of_mem_set hjmem with hmem | rfl
          · exact hp j hmem
          · exact hP _ (hp _ (List.get_mem running idx hidx))
      · rw [dif_neg hidx] at h
        injection h with h
        injection h with h1 h2
        subst h1; subst h2
        exact ⟨fun hp => hp, rfl⟩

theorem jobs_tick_ok_spec (m : Mira) (curr : Int) (m2 : Mira)
    (h : m.jobs_tick curr = Except.ok m2) :
    m2.queue = m.queue ∧ m2.simulated_wallclock = m.simulated_wallclock ∧
    m2.midplanes.length = m.midplanes.length ∧
    ∀ (P : Job → Prop), (∀ j, P j → P (j.tick curr)) →
      (∀ j ∈ m.running_jobs, P j) → ∀ j ∈ m2.running_jobs, P j := by
  unfold Mira.jobs_tick at h
  rcases hgo : jobsTickGo curr m.running_jobs.length 0 m.running_jobs m.midplanes with e | pr
  · rw [hgo] at h; exact absurd h (by simp)
  · rcases pr with ⟨r2, mps2⟩
    rw [hgo] at h
    injection h with h
    subst h
    refine ⟨rfl, rfl, ?_, ?_⟩
    · exact (jobsTickGo_ok_spec curr (fun _ => True) (fun _ _ => trivial) _ _ _ _ _ _ hgo).2
    · intro P hP hp
      exact (jobsTickGo_ok_spec curr P hP _ _ _ _ _ _ hgo).1 hp

/-! The arrival drain: what `get_job` yields and what draining preserves. -/

theorem get_job_some (tr : List Job) (t : Int) (j : Job) (tr2 : List Job)
    (h : Trace.get_job tr t = (some j, tr2)) :
    j.submitted_time = t ∧ tr2 = tr.dropLast ∧ tr = tr2 ++ [j] := by
  unfold Trace.get_job at h
  rcases hl : tr.getLast? with _ | j0
  · rw [hl] at h; exact absurd h (by simp)
  · rw [hl] at h
    dsimp only at h
    by_cases ht : j0.submitted_time = t
    · rw [if_pos ht] at h
      injection h with h1 h2
      injection h1 with h1
      subst h1; subst h2
      exact ⟨ht, rfl, (List.dropLast_append_getLast? j0 hl).symm⟩
    · rw [if_neg ht] at h; exact absurd h (by simp)

theorem submit_num (j : Job) (t : Int) :
    (j.submit t).num_of_requested_nodes = j.num_of_requested_nodes := rfl

theorem drainGo_frame : ∀ (fuel : Nat) (s : SimState),
    (drainGo fuel s).mira.midplanes = s.mira.midplanes ∧
    (drainGo fuel s).mira.running_jobs = s.mira.running_jobs ∧
    (drainGo fuel s).mira.simulated_wallclock = s.mira.simulated_wallclock := by
  intro fuel
  induction fuel with
  | zero => intro s; exact ⟨rfl, rfl, rfl⟩
  | succ fuel ih =>
      intro s
      unfold drainGo
      rcases hg : Trace.get_job s.trace s.mira.simulated_wallclock with ⟨oj, tr2⟩
      cases oj with
      | some j =>
          simp only [hg]
          exact ih { trace := tr2, mira := s.mira.submit_job j }
      | none => simp [hg]

theorem drainGo_queue_mem (j : Job) : ∀ (fuel : Nat) (s : SimState),
    j ∈ s.mira.queue → j ∈ (drainGo fuel s).mira.queue := by
  intro fuel
  induction fuel with
  | zero => intro s hj; exact hj
  | succ fuel ih =>
      intro s hj
      unfold drainGo
      rcases hg : Trace.get_job s.trace s.mira.simulated_wallclock with ⟨oj, tr2⟩
      cases oj with
      | some j2 =>
          simp only [hg]
          exact ih _ (List.mem_append_left _ hj)
      | none => simp only [hg]; exact hj

theorem drainGo_complete : ∀ (fuel : Nat) (s : SimState), s.trace.length ≤ fuel →
    (Trace.get_job (drainGo fuel s).trace (drainGo fuel s).mira.simulated_wallclock).fst
      = none := by
  intro fuel
  induction fuel with
  | zero =>
      intro s h
      have htr : s.trace = [] := List.length_eq_zero.mp (Nat.le_zero.mp h)
      simp [drainGo, Trace.get_job, htr]
  | succ fuel ih =>
      intro s h
      unfold drainGo
      rcases hg : Trace.get_job s.trace s.mira.simulated_wallclock with ⟨oj, tr2⟩
      cases oj with
      | some j =>
          simp only [hg]
          apply ih
          obtain ⟨-, -, hdec⟩ := get_job_some _ _ _ _ hg
          have : s.trace.length = tr2.length + 1 := by rw [hdec]; simp
          simp only []
          omega
      | none => simp [hg]

theorem drainGo_preserves_exists (P : Nat → Prop) : ∀ (fuel : Nat) (s : SimState),
    ((∃ j ∈ s.trace, P j.num_of_requested_nodes) ∨
     (∃ j ∈ s.mira.queue, P j.num_of_requested_nodes)) →
    ((∃ j ∈ (drainGo fuel s).trace, P j.num_of_requested_nodes) ∨
     (∃ j ∈ (drainGo fuel s).mira.queue, P j.num_of_requested_nodes)) := by
  intro fuel
  induction fuel with
  | zero => intro s h; exact h
  | succ fuel ih =>
      intro s h
      unfold drainGo
      rcases hg : Trace.get_job s.trace s.mira.simulated_wallclock with ⟨oj, tr2⟩
      cases oj with
      | none => simp only [hg]; exact h
      | some j =>
          simp only [hg]
          apply ih
          obtain ⟨hsub, htr2, hdec⟩ := get_job_some _ _ _ _ hg
          rcases h with ⟨jx, hjx, hp⟩ | ⟨jx, hjx, hp⟩
          · rw [hdec, List.mem_append] at hjx
            rcases hjx with hjx | hjx
            · exact Or.inl ⟨jx, hjx, hp⟩
            · right
              refine ⟨j.submit s.mira.simulated_wallclock, ?_, ?_⟩
              · show _ ∈ (s.mira.submit_job j).queue
                unfold Mira.submit_job
                exact List.mem_append_right _ (by simp)
              · rw [submit_num]
                have hxj : jx = j := by simpa using hjx
                rw [← hxj]
                exact hp
          · right
            refine ⟨jx, ?_, hp⟩
            show _ ∈ (s.mira.submit_job j).queue
            unfold Mira.submit_job
            exact List.mem_append_left _ hjx

/-! The invariant behind Scenario C: a job whose midplane requirement
exceeds the pool size stays in the trace or the queue forever, and every
job that ever reaches the running set has a requirement that fits the
pool. -/

def Inv (s : SimState) : Prop :=
  ((∃ j ∈ s.trace, 96 < requiredMidplanes j.num_of_requested_nodes) ∨
   (∃ j ∈ s.mira.queue, 96 < requiredMidplanes j.num_of_requested_nodes)) ∧
  s.mira.midplanes.length = 96 ∧
  ∀ j ∈ s.mira.running_jobs, requiredMidplanes j.num_of_requested_nodes ≤ 96

theorem simStep_inv (s s2 : SimState) (h : simStep s = Except.ok s2) (hi : Inv s) :
    Inv s2 := by
  obtain ⟨hbig, hlen, hrun⟩ := hi
  have hfr := drainGo_frame s.trace.length s
  have hbig1 := drainGo_preserves_exists
    (fun n => 96 < requiredMidplanes n) s.trace.length s hbig
  simp only [simStep] at h
  set s1 : SimState := drainArrivals s with hs1
  have hfr1 : s1.mira.midplanes = s.mira.midplanes ∧
      s1.mira.running_jobs = s.mira.running_jobs ∧
      s1.mira.simulated_wallclock = s.mira.simulated_wallclock := hfr
  have hlen1 : s1.mira.midplanes.length = 96 := by rw [hfr1.1]; exact hlen
  have hrun1 : ∀ j ∈ s1.mira.running_jobs,
      requiredMidplanes j.num_of_requested_nodes ≤ 96 := by
    intro j hj
    rw [hfr1.2.1] at hj
    exact hrun j hj
  set m2 : Mira := s1.mira.schedule with hm2
  have hbig2 : (∃ j ∈ s1.trace, 96 < requiredMidplanes j.num_of_requested_nodes) ∨
      (∃ j ∈ m2.queue, 96 < requiredMidplanes j.num_of_requested_nodes) := by
    rcases hbig1 with hb | ⟨j, hj, hp⟩
    · exact Or.inl hb
    · exact Or.inr ⟨j, schedule_queue_mem s1.mira j hj (by rw [hlen1]; exact hp), hp⟩
  have hlen2 : m2.midplanes.length = 96 := by
    rw [hm2, schedule_midplanes_length]; exact hlen1
  have hrun2 : ∀ j ∈ m2.running_jobs,
      requiredMidplanes j.num_of_requested_nodes ≤ 96 := by
    intro j hj
    rcases schedule_running_mem s1.mira j hj with hm | hfitle
    · exact hrun1 j hm
    · rw [hlen1] at hfitle; exact hfitle
  rcases hjt : m2.jobs_tick m2.simulated_wallclock with e | m3
  · rw [hjt] at h; exact absurd h (by simp)
  · rw [hjt] at h
    injection h with h
    subst h
    obtain ⟨hq3, hc3, hl3, hp3⟩ := jobs_tick_ok_spec m2 _ m3 hjt
    refine ⟨?_, ?_, ?_⟩
    · rcases hbig2 with hb | ⟨j, hj, hp⟩
      · exact Or.inl hb
      · refine Or.inr ⟨j, ?_, hp⟩
        show j ∈ m3.queue
        rw [hq3]; exact hj
    · show m3.midplanes.length = 96
      rw [hl3]; exact hlen2
    · intro j hj
      exact hp3 (fun jx => requiredMidplanes jx.num_of_requested_nodes ≤ 96)
        (fun jx hx => by
          show requiredMidplanes
            (jx.tick m2.simulated_wallclock).num_of_requested_nodes ≤ 96
          rw [tick_num]
          exact hx)
        hrun2 j hj

theorem inv_not_done (s : SimState) (hi : Inv s) : loopDone s = false := by
  obtain ⟨hbig, -, -⟩ := hi
  unfold loopDone
  rcases hbig with ⟨j, hj, -⟩ | ⟨j, hj, -⟩
  · have h1 : s.trace.isEmpty = false :=
      List.isEmpty_eq_false.mpr (List.ne_nil_of_mem hj)
    rw [h1]
    simp
  · have h1 : s.mira.queue.isEmpty = false :=
      List.isEmpty_eq_false.mpr (List.ne_nil_of_mem hj)
    rw [h1]
    simp

theorem runFor_inv : ∀ (k : Nat) (s : SimState), Inv s → OkImplies (runFor k s) Inv := by
  intro k
  induction k with
  | zero => intro s hi; exact hi
  | succ k ih =>
      intro s hi
      unfold runFor
      rw [if_neg (by rw [inv_not_done s hi]; simp)]
      rcases hst : simStep s with e | s2
      · simp only [hst]; trivial
      · simp only [hst]
        exact ih s2 (simStep_inv s s2 hst hi)

/-! Claim theorems. -/

/-- Claim C1 (the code contradicts it): step 3 of the loop does NOT advance
every running job exactly once per tick.  In the two-job run, jobs "B"
(duration 2, admitted at t = 0) and "A" (duration 1, admitted at t = 1)
both have `end_time = 2`, and `running_jobs = [B, A]` at the start of the
tick at wallclock 2.  Ticking "B" ends it and removes it from the list
mid-iteration, which shifts "A" into the removed slot; the iterator then
moves past it, so "A" is not ticked at wallclock 2: at the end of that
iteration (wallclock already 3) "A" is still RUNNING with
`end_time = some 2`. -/
theorem jobsTick_removal_skips_next :
    runningAfter (runTwo 2) = [jobB_run, jobA_run] ∧
    runningAfter (runTwo 3) = [jobA_run] ∧
    clockAfter (runTwo 3) = 3 := by decide

/-- Claim C2 (the code contradicts it): releasing an already-vacant
midplane does log the double-free warning, but the method then aborts:
the info log reads `self.job.name` while `self.job` is `None`, raising
AttributeError, so execution does not continue normally. -/
theorem free_up_on_vacant_raises :
    (MidPlane.init "0").free_up = (true, Except.error attrErrMsg) := rfl

/-- Claim C3 (the code contradicts it): the invariant
`end_time = start_time + duration` fails in the ENDED state for job "A"
of the two-job run.  Because "A" is skipped at wallclock 2 (see C1), the
simulation first ticks it again at wallclock 3, where `Job.end_` resets
`end_time` to 3 even though `start_time + duration = 1 + 1 = 2`. -/
theorem end_time_invariant_violated :
    runningAfter (runTwo 3) = [jobA_run] ∧
    jobA_run.start_time = some 1 ∧ jobA_run.duration = 1 ∧
    (jobA_run.tick 3).status = JobStatus.ENDED ∧
    (jobA_run.tick 3).end_time = some 3 ∧
    ¬ (jobA_run.tick 3).end_time = some ((1 : Int) + 1) ∧
    runningAfter (runTwo 4) = [] ∧ clockAfter (runTwo 4) = 4 := by decide

/-- Claim C4 counterexample: a job admitted (marked READY) at tick 0 is
already RUNNING with `start_time = some 0` at the end of the tick-0 loop
iteration — `jobs_tick` runs after `schedule` in the same iteration and
the freshly appended job is ticked with the wallclock still 0 — so the
READY-to-RUNNING transition does not wait for tick T + 1. -/
theorem running_on_admission_tick_cex :
    runningAfter (runOne 1) = [jobS_run] ∧
    jobS_run.status = JobStatus.RUNNING ∧
    jobS_run.start_time = some 0 ∧
    clockAfter (runOne 1) = 1 := by decide

/-- Claim C4 as amended: a job admitted at tick T transitions to RUNNING
during the same tick T (step 3 of the same iteration), with
`start_time = T` and `end_time = T + duration`.  In the Scenario-A run
(one 512-node job, duration 3, arriving at t = 0) the job is RUNNING
with `end_time = 3` from tick 0 on, still RUNNING with its midplane
OCCUPIED through tick 2, and ENDED, removed, and its midplane released
at tick 3, after which the simulation halts. -/
theorem admitted_job_starts_same_tick :
    runningAfter (runOne 1) = [jobS_run] ∧
    mpStatusAfter (runOne 1) 0 = some MidPlaneStatus.OCCUPIED ∧
    runningAfter (runOne 3) = [jobS_run] ∧
    mpStatusAfter (runOne 3) 0 = some MidPlaneStatus.OCCUPIED ∧
    runningAfter (runOne 4) = [] ∧
    mpStatusAfter (runOne 4) 0 = some MidPlaneStatus.VACANT ∧
    doneAfter (runOne 4) = true ∧ clockAfter (runOne 4) = 4 := by decide

/-- Claim C9 counterexample: `MidPlane.assign_job` performs no occupancy
check: invoked on an OCCUPIED midplane (owned by "OLD") it does not fail
in any way — it returns normally and silently overwrites the owner on
the midplane and on its nodes with the new job. -/
theorem assign_job_on_occupied_proceeds :
    occupiedMp.assign_job jobNew =
      { name := "7", status := MidPlaneStatus.OCCUPIED, job := some "NEW",
        nodes := [{ job := some "NEW" }] } := rfl

/-- Claim C9 as amended: `MidPlane.assign_job` unconditionally marks the
midplane OCCUPIED and records the owning job on the midplane and on
every one of its nodes; it contains no fail-fast check, so on an
already-OCCUPIED midplane it silently replaces the previous owner. -/
theorem assign_job_unconditional (mp : MidPlane) (j : Job) :
    (mp.assign_job j).status = MidPlaneStatus.OCCUPIED ∧
    (mp.assign_job j).job = some j.name ∧
    ((mp.assign_job j).nodes.all fun n => decide (n.job = some j.name)) = true := by
  refine ⟨rfl, rfl, ?_⟩
  simp [MidPlane.assign_job, Node.assign_job, List.all_map, Function.comp]

set_option maxRecDepth 8192 in
/-- Claim C6 counterexample: the 49153-node job requests more nodes than
the pool's total capacity (96 * 512 = 49152), yet 49153 // 512 = 96
midplanes are available, so it IS admitted at t = 0 (the running set
gains it, the queue empties) and the simulation terminates. -/
theorem overcapacity_job_admitted :
    96 * 512 < jobHuge.num_of_requested_nodes ∧
    runningAfter (runHuge 1) = [jobHuge_run] ∧
    queueAfter (runHuge 1) = [] ∧
    doneAfter (runHuge 2) = true ∧
    clockAfter (runHuge 2) = 2 := by decide

/-- Claim C5: for every head-of-queue job the scheduler computes the
required block count as the integer floor division
`num_of_requested_nodes // 512` (the definition used by
`Mira.schedule`): whenever `r * 512 ≤ n < (r + 1) * 512` the result is
exactly `r` — rounding down, never up, as
`requiredMidplanes n * 512 ≤ n` states. -/
theorem required_blocks_floor_div (n r : Nat)
    (h1 : r * 512 ≤ n) (h2 : n < (r + 1) * 512) :
    requiredMidplanes n = r ∧ requiredMidplanes n = n / 512 ∧
    requiredMidplanes n * 512 ≤ n :=
  ⟨required_midplanes_floor_aux n r h1 h2, rfl, Nat.div_mul_le_self n 512⟩

/-- Witness for C5: 700 nodes need 700 // 512 = 1 midplane (512 ≤ 700,
rounded down), and a 5-node request needs 0 midplanes. -/
theorem required_blocks_floor_div_witness :
    (1 * 512 ≤ 700 ∧ 700 < (1 + 1) * 512) ∧
    (requiredMidplanes 700 = 1 ∧ requiredMidplanes 700 = 700 / 512 ∧
      requiredMidplanes 700 * 512 ≤ 700) ∧
    requiredMidplanes 5 = 0 :=
  ⟨⟨by norm_num, by norm_num⟩,
    required_blocks_floor_div 700 1 (by norm_num) (by norm_num),
    (required_blocks_floor_div 5 0 (by norm_num) (by norm_num)).1⟩

/-- Claim C7: when the pool cannot supply the required number of vacant
midplanes for the head-of-queue job (fewer vacant midplanes than
required), one scheduler invocation leaves the whole state — queue,
every midplane with its status, owner and node assignments, and the
running set — unchanged (`m.schedule = m`), and the decision depends
only on the queue head: with any other tail behind the same head the
scheduler still changes nothing, so no job behind the head is ever
considered. -/
theorem scheduler_no_fit_frame (m : Mira) (next : Job) (rest : List Job)
    (hq : m.queue = next :: rest)
    (hlt : countVacant m.midplanes < requiredMidplanes next.num_of_requested_nodes) :
    m.schedule = m ∧
    ∀ rest2 : List Job,
      Mira.schedule { m with queue := next :: rest2 } = { m with queue := next :: rest2 } := by
  refine ⟨schedule_insufficient m next rest hq hlt, fun rest2 => ?_⟩
  exact schedule_insufficient _ next rest2 rfl hlt

/-- Witness for C7: a single-midplane pool whose midplane is OCCUPIED
(0 vacant) and a 512-node head job (1 midplane required): the scheduler
leaves the state unchanged. -/
theorem scheduler_no_fit_frame_witness :
    miraBlocked.queue = jobNew :: [] ∧
    countVacant miraBlocked.midplanes < requiredMidplanes jobNew.num_of_requested_nodes ∧
    miraBlocked.schedule = miraBlocked :=
  ⟨rfl, by decide, (scheduler_no_fit_frame miraBlocked jobNew [] rfl (by decide)).1⟩

/-- Witness for C10: even with the (only) midplane OCCUPIED, the 3-node
job at the head of the queue is admitted: dequeued, READY, running with
no midplanes, pool untouched. -/
theorem schedule_small_request_witness :
    miraOccupied.queue = jobTiny :: [] ∧
    jobTiny.num_of_requested_nodes < 512 ∧
    miraOccupied.schedule =
      { miraOccupied with
          queue := [],
          running_jobs := miraOccupied.running_jobs ++
            [{ jobTiny with midplanes := [], status := JobStatus.READY }] } :=
  ⟨rfl, by decide, schedule_small_request miraOccupied jobTiny [] rfl (by decide)⟩

/-- Claim C6 as amended: a job is never admitted and the simulation loop
never terminates exactly when its required midplane count
`num // 512` exceeds the pool's 96 midplanes (i.e. it requests at least
97 * 512 = 49664 nodes); merely exceeding the total node capacity of
49152 is not enough (see the counterexample).  For every trace
containing such a job, after any number of loop iterations the loop's
termination condition is still false, and every job in the running set
has a required midplane count of at most 96 — so the running set never
gains the oversized job. -/
theorem unfit_job_never_admitted (tr : List Job) (k : Nat)
    (hbig : (tr.any fun j =>
      decide (96 < requiredMidplanes j.num_of_requested_nodes)) = true) :
    OkImplies (runFor k (initState tr)) (fun s =>
      loopDone s = false ∧
      (s.mira.running_jobs.all fun j =>
        decide (requiredMidplanes j.num_of_requested_nodes ≤ 96)) = true) := by
  have hinv : Inv (initState tr) := by
    refine ⟨Or.inl ?_, by simp [initState, Mira.init], ?_⟩
    · rw [List.any_eq_true] at hbig
      obtain ⟨j, hj, hp⟩ := hbig
      exact ⟨j, hj, of_decide_eq_true hp⟩
    · intro j hj
      simp [initState, Mira.init] at hj
  have h := runFor_inv k (initState tr) hinv
  rcases hr : runFor k (initState tr) with e | s2
  · simp only [OkImplies, hr]
  · simp only [OkImplies, hr] at h ⊢
    refine ⟨inv_not_done s2 h, ?_⟩
    rw [List.all_eq_true]
    intro j hj
    exact decide_eq_true (h.2.2 j hj)

set_option maxRecDepth 8192 in
/-- Witness for C6: on the trace holding only the 49664-node job "G"
(97 midplanes required), two loop iterations end in a non-final state,
with a running set free of oversized jobs. -/
theorem unfit_job_never_admitted_witness :
    (([jobBig97].any fun j =>
      decide (96 < requiredMidplanes j.num_of_requested_nodes)) = true) ∧
    OkImplies (runFor 2 (initState [jobBig97])) (fun s =>
      loopDone s = false ∧
      (s.mira.running_jobs.all fun j =>
        decide (requiredMidplanes j.num_of_requested_nodes ≤ 96)) = true) ∧
    okB (runFor 2 (initState [jobBig97])) = true :=
  ⟨by decide, unfit_job_never_admitted [jobBig97] 2 (by decide), by decide⟩

/-- Claim C8: within one loop iteration the phases run in the source's
fixed order — the last conjunct states that `simStep` is exactly
drain-arrivals, then one scheduler call, then the running-job tick at
the still-current wallclock, then the increment; whenever the iteration
completes, the wallclock has grown by exactly 1 (the first conjunct);
`get_job` yields a job only when its arrival time equals the current
wallclock, never earlier (second conjunct); and after the drain no due
arrival remains, so simultaneous arrivals are fully drained before the
scheduler runs (third conjunct). -/
theorem tick_protocol_order (s : SimState) (tr : List Job) (t : Int) :
    (match simStep s with
     | Except.ok s2 => s2.mira.simulated_wallclock = s.mira.simulated_wallclock + 1
     | Except.error _ => True) ∧
    (match Trace.get_job tr t with
     | (some j, _) => j.submitted_time = t
     | (none, _) => True) ∧
    (Trace.get_job (drainArrivals s).trace
      (drainArrivals s).mira.simulated_wallclock).fst = none ∧
    simStep s =
      (match ((drainArrivals s).mira.schedule).jobs_tick
          ((drainArrivals s).mira.schedule).simulated_wallclock with
       | Except.error e => Except.error e
       | Except.ok m3 =>
           Except.ok { trace := (drainArrivals s).trace, mira := m3.inc_wallclock }) := by
  refine ⟨?_, ?_, drainGo_complete s.trace.length s le_rfl, rfl⟩
  · rcases hjt : ((drainArrivals s).mira.schedule).jobs_tick
        ((drainArrivals s).mira.schedule).simulated_wallclock with e | m3
    · have hstep : simStep s = Except.error e := by
        simp only [simStep]
        rw [hjt]
      simp only [hstep]
    · have hstep : simStep s =
          Except.ok { trace := (drainArrivals s).trace, mira := m3.inc_wallclock } := by
        simp only [simStep]
        rw [hjt]
      simp only [hstep]
      show m3.simulated_wallclock + 1 = s.mira.simulated_wallclock + 1
      rw [(jobs_tick_ok_spec _ _ _ hjt).2.1, schedule_wallclock]
      exact congrArg (fun x => x + 1) (drainGo_frame s.trace.length s).2.2
  · rcases hgj : Trace.get_job tr t with ⟨oj, tr2⟩
    cases oj with
    | some j => simp only [hgj]; exact (get_job_some tr t j tr2 hgj).1
    | none => simp only [hgj]

end MiraSim
